import Mathlib

/-!
Shallow embedding of the custom acquisition functions of the BoTorch
tutorial `tutorials/custom_acquisition/custom_acquisition.ipynb`:
`qScalarizedUpperConfidenceBound` (Monte Carlo, scalarized q-UCB) and
`ScalarizedUpperConfidenceBound` (analytic, scalarized UCB with `q = 1`).

Tensors are modelled as functions out of `Fin`-indexed types over `ℝ`;
the posterior produced by the external model is an opaque value object
exposing `mean` and (for the analytic, `q = 1` case) the `mvn`
covariance matrix.  A separate shape calculus models the PyTorch shape
semantics of the operation chains used by the two `forward` methods.
-/

open Filter Topology

set_option maxHeartbeats 1000000

/-- The kind of an `MCSampler` object. The tutorial only ever constructs
`SobolQMCNormalSampler`; any other caller-supplied sampler is `custom`. -/
inductive SamplerKind where
  | sobolQMCNormal
  | custom
deriving DecidableEq, Repr

/-- An `MCSampler`, reduced to the data the tutorial code reads from it:
its kind and its `sample_shape` (the number of posterior draws it produces). -/
structure Sampler where
  kind : SamplerKind
  sampleShape : ℕ
deriving DecidableEq, Repr

/-- The posterior object returned by `self.model.posterior(X)`, as the
tutorial uses it: `mean` is the `b x q x o` posterior mean tensor, and
`covariance` is the `b x o x o` tensor read off `posterior.mvn.covariance_matrix`
in the analytic (`q = 1`) acquisition function. -/
structure Posterior (b q o : ℕ) where
  mean : Fin b → Fin q → Fin o → ℝ
  covariance : Fin b → Fin o → Fin o → ℝ

/-- State of a `qScalarizedUpperConfidenceBound` instance: the buffers
`beta` and `weights` registered by `__init__`, and the sampler. -/
structure qScalarizedUpperConfidenceBound (o : ℕ) where
  beta : ℝ
  weights : Fin o → ℝ
  sampler : Sampler

/-- State of a `ScalarizedUpperConfidenceBound` instance: the buffers
`beta` and `weights` registered by `__init__`, and the `maximize` flag. -/
structure ScalarizedUpperConfidenceBound (o : ℕ) where
  beta : ℝ
  weights : Fin o → ℝ
  maximize : Bool

/-- `qScalarizedUpperConfidenceBound.__init__`: stores `beta` and `weights`
and, when no sampler is supplied, installs
`SobolQMCNormalSampler(sample_shape=torch.Size([512]))`. -/
def qScalarizedUpperConfidenceBound.init {o : ℕ} (beta : ℝ) (weights : Fin o → ℝ)
    (sampler : Option Sampler) : qScalarizedUpperConfidenceBound o :=
  { beta := beta
    weights := weights
    sampler := sampler.getD { kind := SamplerKind.sobolQMCNormal, sampleShape := 512 } }

/-- `ScalarizedUpperConfidenceBound.__init__`: stores `beta`, `weights`
and the `maximize` flag. -/
def ScalarizedUpperConfidenceBound.init {o : ℕ} (beta : ℝ) (weights : Fin o → ℝ)
    (maximize : Bool) : ScalarizedUpperConfidenceBound o :=
  { beta := beta, weights := weights, maximize := maximize }

/-- `tensor.matmul(weights)` for a tensor whose last dimension has size `o`
and a weight vector of length `o`: contracts the last dimension. -/
def matmulWeights {o : ℕ} (v : Fin o → ℝ) (w : Fin o → ℝ) : ℝ :=
  ∑ k : Fin o, v k * w k

/-- The argument handed to `math.sqrt` in `qScalarizedUpperConfidenceBound.forward`:
`self.beta * math.pi / 2`. -/
noncomputable def qSqrtArg (beta : ℝ) : ℝ :=
  beta * Real.pi / 2

/-- Core of `qScalarizedUpperConfidenceBound.forward` on the posterior data:
scalarize samples and mean with the weights, form per-sample UCB values,
take `max` over the `q` dimension and `mean` over the sample dimension.
`samples` is the `n x b x q x o` tensor produced by `self.get_posterior_samples`,
`mean` the `b x q x o` posterior mean.  The `q` dimension has size `q + 1`
since `torch.max` over an empty dimension is an error. -/
noncomputable def qUCBvalues {n b q o : ℕ} (beta : ℝ) (w : Fin o → ℝ)
    (samples : Fin n → Fin b → Fin (q + 1) → Fin o → ℝ)
    (mean : Fin b → Fin (q + 1) → Fin o → ℝ) : Fin b → ℝ :=
  let scalarized_samples : Fin n → Fin b → Fin (q + 1) → ℝ :=
    fun i ib j => matmulWeights (samples i ib j) w
  let scalarized_mean : Fin b → Fin (q + 1) → ℝ :=
    fun ib j => matmulWeights (mean ib j) w
  let ucb_samples : Fin n → Fin b → Fin (q + 1) → ℝ :=
    fun i ib j =>
      scalarized_mean ib j +
        Real.sqrt (qSqrtArg beta) * |scalarized_samples i ib j - scalarized_mean ib j|
  fun ib =>
    (∑ i : Fin n, Finset.univ.sup' Finset.univ_nonempty (fun j => ucb_samples i ib j)) / n

/-- `qScalarizedUpperConfidenceBound.forward`: evaluates the scalarized qUCB
on the candidate set.  `posterior` stands for `self.model.posterior(X)` and
`samples` for `self.get_posterior_samples(posterior)`; the number of draws
is the sampler's `sample_shape`.  The method mutates nothing, so the state
after the call is `self` itself. -/
noncomputable def qScalarizedUpperConfidenceBound.forward {b q o : ℕ}
    (self : qScalarizedUpperConfidenceBound o)
    (posterior : Posterior b (q + 1) o)
    (samples : Fin self.sampler.sampleShape → Fin b → Fin (q + 1) → Fin o → ℝ) :
    qScalarizedUpperConfidenceBound o × (Fin b → ℝ) :=
  (self, qUCBvalues self.beta self.weights samples posterior.mean)

/-- `Tensor.to(X)`: dtype/device cast of a buffer; the numeric value
is unchanged in the real-valued model. -/
def tensorTo (x : ℝ) : ℝ := x

/-- The scalarized mean of `ScalarizedUpperConfidenceBound.forward`:
`posterior.mean.squeeze(dim=-2).matmul(self.weights)`, per t-batch element.
`means` is the already-squeezed `b x o` mean. -/
def scalarizedMean {b o : ℕ} (w : Fin o → ℝ) (means : Fin b → Fin o → ℝ)
    (ib : Fin b) : ℝ :=
  matmulWeights (means ib) w

/-- The scalarized variance of `ScalarizedUpperConfidenceBound.forward`:
`torch.bmm(weights_transpose, torch.bmm(covs, weights)).view(batch_shape)`,
the batched `1 x o` × (`o x o` × `o x 1`) product, per t-batch element. -/
def scalarizedVariance {b o : ℕ} (w : Fin o → ℝ)
    (covs : Fin b → Fin o → Fin o → ℝ) (ib : Fin b) : ℝ :=
  ∑ i : Fin o, w i * (∑ j : Fin o, covs ib i j * w j)

/-- The argument handed elementwise to `.sqrt()` in
`ScalarizedUpperConfidenceBound.forward`:
`self.beta.expand_as(scalarized_mean) * scalarized_variance`. -/
def sSqrtArg (beta sv : ℝ) : ℝ :=
  beta * sv

/-- Core of `ScalarizedUpperConfidenceBound.forward` on the posterior data
(`means` is the squeezed `b x o` posterior mean, `covs` the `b x o x o`
covariance): `delta = (beta * scalarized_variance).sqrt()`, then
`scalarized_mean + delta` when maximizing, `scalarized_mean - delta` otherwise. -/
noncomputable def sUCBvalues {b o : ℕ} (beta : ℝ) (maximize : Bool) (w : Fin o → ℝ)
    (means : Fin b → Fin o → ℝ) (covs : Fin b → Fin o → Fin o → ℝ) :
    Fin b → ℝ :=
  fun ib =>
    let delta := Real.sqrt (sSqrtArg beta (scalarizedVariance w covs ib))
    if maximize then scalarizedMean w means ib + delta
    else scalarizedMean w means ib - delta

/-- `ScalarizedUpperConfidenceBound.forward` for a `q = 1` posterior:
re-binds `self.beta` to `self.beta.to(X)` (value-preserving in the model)
and returns the analytic scalarized UCB scores. -/
noncomputable def ScalarizedUpperConfidenceBound.forward {b o : ℕ}
    (self : ScalarizedUpperConfidenceBound o)
    (posterior : Posterior b 1 o) :
    ScalarizedUpperConfidenceBound o × (Fin b → ℝ) :=
  let self' : ScalarizedUpperConfidenceBound o := { self with beta := tensorTo self.beta }
  (self', sUCBvalues self'.beta self'.maximize self'.weights
    (fun ib k => posterior.mean ib 0 k) posterior.covariance)

/-- Modelled from the spec: the `t_batch_mode_transform(expected_q=1)`
decorator applied to `ScalarizedUpperConfidenceBound.forward`.  Its
implementation lives in `botorch.utils.transforms`, outside `src/`; the
notebook states "here we are also using `expected_q=1` to ensure the input
`X` has a `q=1`".  For an input whose `q` dimension differs from 1 the call
raises an error instead of evaluating the method. -/
noncomputable def ScalarizedUpperConfidenceBound.forwardChecked {b o : ℕ} (q : ℕ)
    (self : ScalarizedUpperConfidenceBound o)
    (posterior : Posterior b 1 o) :
    Except String (ScalarizedUpperConfidenceBound o × (Fin b → ℝ)) :=
  if q = 1 then
    Except.ok (self.forward posterior)
  else
    Except.error "Expected X to be `batch_shape x q=1 x d`"

/-! ### Shape calculus

PyTorch shape semantics of the tensor operations the two `forward`
methods compose, used to state the output-shape property. Shapes are
lists of dimension sizes; `none` models a shape error. -/

/-- Shape of `tensor.matmul(w)` for a weight vector `w` of length `o`:
defined when the tensor's last dimension has size `o`; that dimension is
contracted away. -/
def matmulVecShape (s : List ℕ) (o : ℕ) : Option (List ℕ) :=
  match s.getLast? with
  | some k => if k = o then some s.dropLast else none
  | none => none

/-- PyTorch broadcasting on reversed (rightmost-first) shapes. -/
def broadcastRev : List ℕ → List ℕ → Option (List ℕ)
  | [], ys => some ys
  | x :: xs, [] => some (x :: xs)
  | x :: xs, y :: ys =>
    match broadcastRev xs ys with
    | some rest =>
      if x = y then some (x :: rest)
      else if x = 1 then some (y :: rest)
      else if y = 1 then some (x :: rest)
      else none
    | none => none

/-- PyTorch broadcasting of two shapes, as used by elementwise `+`, `-`, `*`. -/
def broadcastShape (s t : List ℕ) : Option (List ℕ) :=
  (broadcastRev s.reverse t.reverse).map List.reverse

/-- Shape of `tensor.max(dim=-1)[0]`: defined when the tensor has at least
one dimension and the last dimension is non-empty (reducing an empty
dimension with `max` is an error); the last dimension is dropped. -/
def maxLastDimShape (s : List ℕ) : Option (List ℕ) :=
  match s.getLast? with
  | some k => if k = 0 then none else some s.dropLast
  | none => none

/-- Shape of `tensor.mean(dim=0)`: drops the leading dimension. -/
def meanDimZeroShape : List ℕ → Option (List ℕ)
  | [] => none
  | _ :: rest => some rest

/-- Shape of `tensor.squeeze(dim=-2)`: defined on tensors of dimension at
least 2; removes the second-to-last dimension when it has size 1. -/
def squeezeSecondLastShape (s : List ℕ) : Option (List ℕ) :=
  match s.reverse with
  | last2 :: second :: rest =>
    if second = 1 then some ((last2 :: rest).reverse) else some s
  | _ => none

/-- Shape of `torch.bmm`: batched matrix product of `b x n x m` and
`b x m x p` tensors. -/
def bmmShape : List ℕ → List ℕ → Option (List ℕ)
  | [b1, n1, m1], [b2, m2, p2] =>
    if b1 = b2 ∧ m1 = m2 then some [b1, n1, p2] else none
  | _, _ => none

/-- Shape of `tensor.view(target)`: defined when the element counts agree. -/
def viewShape (s target : List ℕ) : Option (List ℕ) :=
  if s.prod = target.prod then some target else none

/-- Shape of `tensor.expand(target)`: each dimension either matches or is
expanded from size 1. -/
def expandShape : List ℕ → List ℕ → Option (List ℕ)
  | [], [] => some []
  | x :: xs, y :: ys =>
    match expandShape xs ys with
    | some rest => if x = y ∨ x = 1 then some (y :: rest) else none
    | none => none
  | _, _ => none

/-- Output shape of `qScalarizedUpperConfidenceBound.forward` on an input
with `n` posterior draws, t-batch size `b`, `q` candidates and `o` outputs:
matmul with the weights on samples (`n x b x q x o`) and mean (`b x q x o`),
broadcasted deviation and UCB sum, `max` over `dim=-1`, `mean` over `dim=0`. -/
def qForwardShape (n b q o : ℕ) : Option (List ℕ) := do
  let scalarized_samples ← matmulVecShape [n, b, q, o] o
  let scalarized_mean ← matmulVecShape [b, q, o] o
  let deviation ← broadcastShape scalarized_samples scalarized_mean
  let ucb_samples ← broadcastShape scalarized_mean deviation
  let maxed ← maxLastDimShape ucb_samples
  meanDimZeroShape maxed

/-- Output shape of `ScalarizedUpperConfidenceBound.forward` on an input
with t-batch size `b`, `q = 1` and `o` outputs: squeeze and matmul for the
scalarized mean, `view`/`expand`/`permute`/`bmm`/`bmm`/`view` for the
scalarized variance, elementwise `sqrt` and the final broadcasted `±`. -/
def sForwardShape (b o : ℕ) : Option (List ℕ) := do
  let means ← squeezeSecondLastShape [b, 1, o]
  let scalarized_mean ← matmulVecShape means o
  let covs := [b, o, o]
  let weights1 ← viewShape [o] [1, o, 1]
  let weights2 ← expandShape weights1 [b, o, 1]
  let weights_transpose :=
    match weights2 with
    | [a, c, d] => some [a, d, c]
    | _ => none
  let wT ← weights_transpose
  let covsW ← bmmShape covs weights2
  let quad ← bmmShape wT covsW
  let scalarized_variance ← viewShape quad [b]
  broadcastShape scalarized_mean scalarized_variance

/-! ### Theorems -/

/-- The scalarized variance computed by the `bmm` chain equals the
quadratic form `wᵀ Σ w` of the covariance matrix. -/
lemma scalarizedVariance_eq {b o : ℕ} (w : Fin o → ℝ)
    (covs : Fin b → Fin o → Fin o → ℝ) (ib : Fin b) :
    scalarizedVariance w covs ib =
      ∑ i : Fin o, ∑ j : Fin o, w i * covs ib i j * w j := by
  unfold scalarizedVariance
  refine Finset.sum_congr rfl fun i _ => ?_
  rw [Finset.mul_sum]
  exact Finset.sum_congr rfl fun j _ => by ring

/-- Claim C1: the Monte Carlo scalarized UCB score of
`qScalarizedUpperConfidenceBound.forward` scalarizes the posterior samples
and the posterior mean with the weight vector, forms per-sample UCB values
as scalarized mean plus `sqrt(beta * pi / 2)` times the absolute deviation
of the scalarized sample from the scalarized mean, takes the maximum over
the `q` dimension and averages over the sample dimension. -/
theorem qScalarizedUCB_forward_formula {b q o : ℕ}
    (self : qScalarizedUpperConfidenceBound o)
    (posterior : Posterior b (q + 1) o)
    (samples : Fin self.sampler.sampleShape → Fin b → Fin (q + 1) → Fin o → ℝ)
    (ib : Fin b) :
    (self.forward posterior samples).2 ib =
      (∑ i : Fin self.sampler.sampleShape,
        Finset.univ.sup' Finset.univ_nonempty (fun j : Fin (q + 1) =>
          (∑ k : Fin o, posterior.mean ib j k * self.weights k) +
            Real.sqrt (self.beta * Real.pi / 2) *
              |(∑ k : Fin o, samples i ib j k * self.weights k) -
                (∑ k : Fin o, posterior.mean ib j k * self.weights k)|)) /
        (self.sampler.sampleShape : ℝ) := rfl

/-- Claim C2: the analytic scalarized UCB score of
`ScalarizedUpperConfidenceBound.forward` equals the weight vector dotted
with the posterior mean, plus (when `maximize`) or minus (otherwise) the
square root of `beta` times the quadratic form `wᵀ Σ w` of the posterior
covariance matrix. -/
theorem ScalarizedUCB_forward_formula {b o : ℕ}
    (self : ScalarizedUpperConfidenceBound o)
    (posterior : Posterior b 1 o) (ib : Fin b) :
    (self.forward posterior).2 ib =
      if self.maximize then
        (∑ k : Fin o, posterior.mean ib 0 k * self.weights k) +
          Real.sqrt (self.beta *
            ∑ i : Fin o, ∑ j : Fin o,
              self.weights i * posterior.covariance ib i j * self.weights j)
      else
        (∑ k : Fin o, posterior.mean ib 0 k * self.weights k) -
          Real.sqrt (self.beta *
            ∑ i : Fin o, ∑ j : Fin o,
              self.weights i * posterior.covariance ib i j * self.weights j) := by
  show sUCBvalues self.beta self.maximize self.weights
      (fun i k => posterior.mean i 0 k) posterior.covariance ib = _
  rw [sUCBvalues]
  simp only [sSqrtArg, scalarizedVariance_eq, scalarizedMean, matmulWeights]

/-- Claim C3: at `beta = 0` the analytic scalarized UCB score equals the
scalarized posterior mean; the exploration term vanishes identically. -/
theorem sUCB_beta_zero {b o : ℕ}
    (self : ScalarizedUpperConfidenceBound o)
    (posterior : Posterior b 1 o) (ib : Fin b) (h : self.beta = 0) :
    (self.forward posterior).2 ib =
      scalarizedMean self.weights (fun i k => posterior.mean i 0 k) ib := by
  show sUCBvalues self.beta self.maximize self.weights
      (fun i k => posterior.mean i 0 k) posterior.covariance ib = _
  rw [sUCBvalues]
  simp [sSqrtArg, h]

/-- Witness for claim C3 at a concrete instance with `beta = 0`. -/
theorem sUCB_beta_zero_witness :
    (0 : ℝ) = 0 ∧
      (ScalarizedUpperConfidenceBound.forward (o := 1) (b := 1)
        ⟨0, fun _ => 1, true⟩ ⟨fun _ _ _ => 2, fun _ _ _ => 5⟩).2 0 = 2 := by
  refine ⟨rfl, ?_⟩
  rw [sUCB_beta_zero ⟨0, fun _ => 1, true⟩ ⟨fun _ _ _ => 2, fun _ _ _ => 5⟩ 0 rfl]
  simp [scalarizedMean, matmulWeights]

/-- Claim C4: both `forward` methods return a one-dimensional tensor with
one scalar score per t-batch element, and that output shape is independent
of the model's output count `o` (the weight vector's length matching `o`). -/
theorem forward_output_shape (n b q o : ℕ) (hq : 0 < q) :
    qForwardShape n b q o = some [b] ∧ sForwardShape b o = some [b] := by
  constructor
  · simp [qForwardShape, matmulVecShape, broadcastShape, broadcastRev, maxLastDimShape,
      meanDimZeroShape, List.getLast?, Nat.pos_iff_ne_zero.mp hq]
  · simp [sForwardShape, squeezeSecondLastShape, matmulVecShape, viewShape, expandShape,
      bmmShape, broadcastShape, broadcastRev, List.getLast?]

/-- Witness for claim C4 at concrete dimension sizes. -/
theorem forward_output_shape_witness :
    0 < 3 ∧ (qForwardShape 512 7 3 5 = some [7] ∧ sForwardShape 7 5 = some [7]) :=
  ⟨by decide, forward_output_shape 512 7 3 5 (by decide)⟩

/-- Claim C5: evaluation leaves the `beta` and `weights` buffers of both
acquisition functions unchanged (the analytic `forward` re-binds `beta`
through the value-preserving `Tensor.to` cast). -/
theorem forward_preserves_buffers {b q o : ℕ}
    (selfq : qScalarizedUpperConfidenceBound o)
    (selfs : ScalarizedUpperConfidenceBound o)
    (postq : Posterior b (q + 1) o) (posts : Posterior b 1 o)
    (samples : Fin selfq.sampler.sampleShape → Fin b → Fin (q + 1) → Fin o → ℝ) :
    ((selfq.forward postq samples).1.beta = selfq.beta ∧
      (selfq.forward postq samples).1.weights = selfq.weights) ∧
    ((selfs.forward posts).1.beta = selfs.beta ∧
      (selfs.forward posts).1.weights = selfs.weights) :=
  ⟨⟨rfl, rfl⟩, ⟨rfl, rfl⟩⟩

/-- Claim C6: with `beta` non-negative and a positive-semidefinite posterior
covariance, both square-root operations of the two `forward` methods receive
non-negative arguments. -/
theorem sqrt_args_nonneg {b o : ℕ} (beta : ℝ) (w : Fin o → ℝ)
    (covs : Fin b → Fin o → Fin o → ℝ) (ib : Fin b)
    (hbeta : 0 ≤ beta)
    (hpsd : ∀ v : Fin o → ℝ, 0 ≤ ∑ i : Fin o, ∑ j : Fin o, v i * covs ib i j * v j) :
    0 ≤ qSqrtArg beta ∧ 0 ≤ sSqrtArg beta (scalarizedVariance w covs ib) := by
  constructor
  · exact div_nonneg (mul_nonneg hbeta Real.pi_pos.le) (by norm_num)
  · rw [sSqrtArg, scalarizedVariance_eq]
    exact mul_nonneg hbeta (hpsd w)

/-- Witness for claim C6 at a concrete non-negative `beta` and the
(positive-semidefinite) zero covariance matrix. -/
theorem sqrt_args_nonneg_witness :
    (0 : ℝ) ≤ 1 ∧
      (0 ≤ qSqrtArg 1 ∧
        0 ≤ sSqrtArg 1 (scalarizedVariance (o := 1) (b := 1)
          (fun _ => 2) (fun _ _ _ => 0) 0)) :=
  ⟨by norm_num,
    sqrt_args_nonneg 1 (fun _ => 2) (fun _ _ _ => 0) 0 (by norm_num)
      (fun v => by simp)⟩

/-- The Monte Carlo scalarized UCB on a single point (`b = q = o = 1`) with
unit weight and at least one draw: the score is the mean plus
`sqrt(beta * pi / 2)` times the empirical mean absolute deviation of the
scalarized samples. -/
lemma qUCBvalues_single (n : ℕ) (hn : 1 ≤ n) (beta m : ℝ) (s : ℕ → ℝ) :
    qUCBvalues (n := n) (b := 1) (q := 0) (o := 1) beta (fun _ => 1)
        (fun i _ _ _ => s i) (fun _ _ _ => m) 0 =
      m + Real.sqrt (qSqrtArg beta) *
        ((∑ i ∈ Finset.range n, |s i - m|) / n) := by
  have hn' : (n : ℝ) ≠ 0 := Nat.cast_ne_zero.mpr (by omega)
  rw [qUCBvalues]
  simp only [matmulWeights, Fin.sum_univ_one, mul_one, Finset.sup'_const]
  rw [Finset.sum_add_distrib, Finset.sum_const, Finset.card_univ, Fintype.card_fin,
    ← Finset.mul_sum, nsmul_eq_mul, ← Finset.sum_range (fun i => |s i - m|)]
  field_simp
  ring

/-- Claim C7: for a fixed Gaussian posterior (mean `m`, standard deviation
`sigma`) at a single point with unit weight, the Monte Carlo scalarized UCB
score converges to the analytic scalarized UCB score as the number of
posterior draws grows — given that the empirical mean absolute deviation of
the scalarized samples converges to `sigma * sqrt(2 / pi)`, the mean
absolute deviation of a `N(m, sigma²)` draw (almost surely true for
posterior sampling, by the law of large numbers). -/
theorem qUCB_tendsto_analytic (beta m sigma : ℝ) (hbeta : 0 ≤ beta) (hsigma : 0 ≤ sigma)
    (s : ℕ → ℝ)
    (hs : Filter.Tendsto (fun n => (∑ i ∈ Finset.range n, |s i - m|) / n)
      Filter.atTop (nhds (sigma * Real.sqrt (2 / Real.pi)))) :
    Filter.Tendsto
      (fun n => qUCBvalues (n := n) (b := 1) (q := 0) (o := 1) beta (fun _ => 1)
        (fun i _ _ _ => s i) (fun _ _ _ => m) 0)
      Filter.atTop
      (nhds (sUCBvalues (b := 1) (o := 1) beta true (fun _ => 1)
        (fun _ _ => m) (fun _ _ _ => sigma ^ 2) 0)) := by
  have hq : (0 : ℝ) ≤ qSqrtArg beta :=
    div_nonneg (mul_nonneg hbeta Real.pi_pos.le) (by norm_num)
  have hkey : Real.sqrt (qSqrtArg beta) * (sigma * Real.sqrt (2 / Real.pi)) =
      Real.sqrt beta * sigma := by
    have h1 : Real.sqrt (qSqrtArg beta) * Real.sqrt (2 / Real.pi) =
        Real.sqrt (qSqrtArg beta * (2 / Real.pi)) := (Real.sqrt_mul hq _).symm
    have h2 : qSqrtArg beta * (2 / Real.pi) = beta := by
      rw [qSqrtArg]
      field_simp
    calc Real.sqrt (qSqrtArg beta) * (sigma * Real.sqrt (2 / Real.pi))
        = Real.sqrt (qSqrtArg beta) * Real.sqrt (2 / Real.pi) * sigma := by ring
      _ = Real.sqrt beta * sigma := by rw [h1, h2]
  have hval : sUCBvalues (b := 1) (o := 1) beta true (fun _ => 1)
      (fun _ _ => m) (fun _ _ _ => sigma ^ 2) 0 =
      m + Real.sqrt (qSqrtArg beta) * (sigma * Real.sqrt (2 / Real.pi)) := by
    rw [sUCBvalues]
    simp only [if_true, sSqrtArg, scalarizedVariance, scalarizedMean, matmulWeights,
      Fin.sum_univ_one, mul_one, one_mul]
    rw [hkey, Real.sqrt_mul hbeta, Real.sqrt_sq hsigma]
  rw [hval]
  have hlim : Filter.Tendsto
      (fun n => m + Real.sqrt (qSqrtArg beta) *
        ((∑ i ∈ Finset.range n, |s i - m|) / n))
      Filter.atTop
      (nhds (m + Real.sqrt (qSqrtArg beta) * (sigma * Real.sqrt (2 / Real.pi)))) :=
    (hs.const_mul (Real.sqrt (qSqrtArg beta))).const_add m
  exact Filter.Tendsto.congr'
    (Filter.eventually_atTop.mpr ⟨1, fun n hn => (qUCBvalues_single n hn beta m s).symm⟩) hlim

/-- Witness for claim C7 at the degenerate posterior `m = 0`, `sigma = 0`
with constant samples. -/
theorem qUCB_tendsto_analytic_witness :
    Filter.Tendsto
      (fun n => qUCBvalues (n := n) (b := 1) (q := 0) (o := 1) 0 (fun _ => 1)
        (fun _ _ _ _ => 0) (fun _ _ _ => 0) 0)
      Filter.atTop
      (nhds (sUCBvalues (b := 1) (o := 1) 0 true (fun _ => 1)
        (fun _ _ => 0) (fun _ _ _ => (0 : ℝ) ^ 2) 0)) :=
  qUCB_tendsto_analytic 0 0 0 le_rfl le_rfl (fun _ => 0)
    (by simp)

/-- Claim C8: the decorated analytic `forward` rejects every input whose `q`
dimension differs from 1 with an error instead of returning scores. -/
theorem sUCB_rejects_q_ne_one {b o : ℕ} (q : ℕ)
    (self : ScalarizedUpperConfidenceBound o)
    (posterior : Posterior b 1 o) (hq : q ≠ 1) :
    ScalarizedUpperConfidenceBound.forwardChecked q self posterior =
      Except.error "Expected X to be `batch_shape x q=1 x d`" := by
  rw [ScalarizedUpperConfidenceBound.forwardChecked, if_neg hq]

/-- Witness for claim C8 at `q = 2`. -/
theorem sUCB_rejects_q_ne_one_witness :
    (2 : ℕ) ≠ 1 ∧
      ScalarizedUpperConfidenceBound.forwardChecked (b := 1) (o := 1) 2
        ⟨1, fun _ => 1, true⟩ ⟨fun _ _ _ => 0, fun _ _ _ => 0⟩ =
        Except.error "Expected X to be `batch_shape x q=1 x d`" :=
  ⟨by decide,
    sUCB_rejects_q_ne_one 2 ⟨1, fun _ => 1, true⟩ ⟨fun _ _ _ => 0, fun _ _ _ => 0⟩
      (by decide)⟩

/-- Claim C9: constructing `qScalarizedUpperConfidenceBound` without an
explicit sampler installs a Sobol quasi-Monte Carlo normal sampler with
sample shape 512; `forward`'s posterior-sample tensor is indexed by exactly
that many draws. -/
theorem qUCB_default_sampler {o : ℕ} (beta : ℝ) (weights : Fin o → ℝ) :
    (qScalarizedUpperConfidenceBound.init beta weights none).sampler =
      { kind := SamplerKind.sobolQMCNormal, sampleShape := 512 } := rfl

/-- Claim C10: when `beta` times the scalarized variance is non-negative,
the analytic scalarized UCB score with `maximize = true` is at least the
scalarized mean, which is at least the score with `maximize = false`. -/
theorem sUCB_maximize_bracket {b o : ℕ} (beta : ℝ) (w : Fin o → ℝ)
    (posterior : Posterior b 1 o) (ib : Fin b)
    (h : 0 ≤ sSqrtArg beta (scalarizedVariance w posterior.covariance ib)) :
    (ScalarizedUpperConfidenceBound.forward ⟨beta, w, false⟩ posterior).2 ib ≤
      scalarizedMean w (fun i k => posterior.mean i 0 k) ib ∧
    scalarizedMean w (fun i k => posterior.mean i 0 k) ib ≤
      (ScalarizedUpperConfidenceBound.forward ⟨beta, w, true⟩ posterior).2 ib := by
  have hd := Real.sqrt_nonneg (sSqrtArg beta (scalarizedVariance w posterior.covariance ib))
  constructor
  · show sUCBvalues beta false w (fun i k => posterior.mean i 0 k) posterior.covariance ib ≤ _
    rw [sUCBvalues]
    simp only [Bool.false_eq_true, if_false]
    linarith
  · show _ ≤ sUCBvalues beta true w (fun i k => posterior.mean i 0 k) posterior.covariance ib
    rw [sUCBvalues]
    simp only [if_true]
    linarith

/-- Witness for claim C10 at a concrete posterior with zero covariance. -/
theorem sUCB_maximize_bracket_witness :
    (0 : ℝ) ≤ sSqrtArg 1 (scalarizedVariance (b := 1) (o := 1)
        (fun _ => 1) (fun _ _ _ => 0) 0) ∧
      ((ScalarizedUpperConfidenceBound.forward (b := 1) (o := 1)
          ⟨1, fun _ => 1, false⟩ ⟨fun _ _ _ => 3, fun _ _ _ => 0⟩).2 0 ≤
        scalarizedMean (b := 1) (o := 1) (fun _ => 1) (fun _ _ => (3 : ℝ)) 0 ∧
      scalarizedMean (b := 1) (o := 1) (fun _ => 1) (fun _ _ => (3 : ℝ)) 0 ≤
        (ScalarizedUpperConfidenceBound.forward (b := 1) (o := 1)
          ⟨1, fun _ => 1, true⟩ ⟨fun _ _ _ => 3, fun _ _ _ => 0⟩).2 0) := by
  refine ⟨by simp [sSqrtArg, scalarizedVariance], ?_⟩
  exact sUCB_maximize_bracket 1 (fun _ => 1) ⟨fun _ _ _ => 3, fun _ _ _ => 0⟩ 0
    (by simp [sSqrtArg, scalarizedVariance])
